import Mathlib

/-!
Shallow embedding of the real-time audio visualizer core
(analyzer.py, audio_input.py, player.py, visuals.py), together with
theorems settling the specification's claims about it.

Conventions of the embedding:
* machine floating-point values are modelled exactly: finite values as
  rationals (or reals where transcendental functions enter), and the
  IEEE-754 non-finite values NaN / +Inf / -Inf as explicit constructors;
* fallible operations are total functions here exactly where the source
  code cannot raise (the "never raises" parts of the claims are reflected
  by totality of the corresponding definitions);
* `random.uniform` draws are supplied by an oracle function, indexed in
  program order, since the claims do not depend on the distribution;
* where float32 overflow changes the program's behaviour (the float32
  squaring in the RMS volume and the `.astype(np.float32)` cast of the
  magnitude spectrum), the overflow is modelled explicitly by the `F32`
  refinement layer: arithmetic is exact except that a result beyond the
  largest finite float32 value becomes +Inf or -Inf, and Inf/Inf becomes
  NaN (rounding inside the representable range is idealized away).
-/

set_option maxHeartbeats 1000000

namespace XV

/-- A floating-point sample as seen by the analyzer: a finite value
(modelled exactly as a rational) or one of the IEEE-754 non-finite values
NaN, +Inf, -Inf. -/
inductive FloatVal where
  | finite (q : ℚ)
  | nan
  | inf
  | neginf
deriving DecidableEq

/-- Largest finite float32 value, `(2^24 - 1) * 2^104 = 3.4028235e38`;
`np.nan_to_num` substitutes it for +Inf on float32 input. -/
def float32Max : ℚ := 340282346638528859811704183484516925440

/-- `np.nan_to_num` with default arguments (analyzer.py line 40): NaN
becomes 0, +Inf becomes the largest finite float32, -Inf the most negative
finite float32, finite values pass through unchanged. -/
def nan_to_num : FloatVal → FloatVal
  | .finite q => .finite q
  | .nan => .finite 0
  | .inf => .finite float32Max
  | .neginf => .finite (-float32Max)

/-- Whether a sample is a finite value. -/
def FloatVal.isFinite : FloatVal → Bool
  | .finite _ => true
  | _ => false

/-- The finite value carried by a sample (junk 0 on the non-finite
constructors, which never survive `nan_to_num`). -/
def FloatVal.val : FloatVal → ℚ
  | .finite q => q
  | _ => 0

/-- First step of `AudioAnalyzer.analyze`:
`frame = np.nan_to_num(frame, copy=False)`. -/
def sanitize (frame : List FloatVal) : List FloatVal := frame.map nan_to_num

/-- One mono audio frame exchanged between the producer callback and the
consumer loop. -/
abbrev Frame := List ℚ

/-- Capacity of the producer/consumer exchange
(`queue.Queue(maxsize=8)` in audio_input.py and player.py). -/
abbrev exchangeCapacity : ℕ := 8

/-- Producer push (audio_input.py lines 35-42, player.py lines 90-97):
`put_nowait`; on `queue.Full`, discard the oldest entry with `get_nowait`
and retry the put. Head of the list is the oldest entry. The function is
total: the push never blocks and never fails. -/
def tryPush (q : List Frame) (x : Frame) : List Frame :=
  if q.length < exchangeCapacity then q ++ [x] else q.drop 1 ++ [x]

/-- Consumer drain (`AudioInput.get_latest_frame`,
`AudioFilePlayer.get_last_block`): `get_nowait` until `queue.Empty`,
keeping the last item seen, falling back to `blocksize` zeros. Returns the
frame together with the (emptied) remaining queue; total, never blocks. -/
def drainLatest (blocksize : ℕ) (q : List Frame) : Frame × List Frame :=
  ((q.getLast?).getD (List.replicate blocksize 0), [])

/-- One multi-channel PCM sample row (one sample per channel). -/
abbrev SampleRow := List ℚ

/-- `np.mean` over one sample row (channel average). -/
def rowMean (r : SampleRow) : ℚ := r.sum / (r.length : ℚ)

/-- A zero sample row (`outdata.fill(0)` writes these). -/
def zeroRow (channels : ℕ) : SampleRow := List.replicate channels 0

/-- `AudioInput._audio_callback` (audio_input.py lines 31-42): `status` is
the truthiness of the device status flags passed by the audio subsystem; a
non-empty flag set returns before anything is pushed. `indata` is the
(frames x channels) capture buffer; the pushed frame is its per-row
channel mean. Returns the updated exchange queue. -/
def audio_callback (status : Bool) (indata : List SampleRow)
    (q : List Frame) : List Frame :=
  if status then q else tryPush q (indata.map rowMean)

/-- Mutable state of `AudioFilePlayer` (player.py): the decoded buffer
(`None` before `load`), sample rate, channel count, playback cursor,
playing flag, and the analysis tap-out queue. -/
structure PlayerState where
  blocksize : ℕ
  audio : Option (List SampleRow)
  samplerate : ℕ
  channels : ℕ
  position : ℕ
  playing : Bool
  analysisQueue : List Frame
deriving DecidableEq

/-- `AudioFilePlayer._callback` (player.py lines 72-97): fills the output
buffer, advances the cursor, pauses at end of stream, and taps the written
block into the analysis queue. Returns the written output buffer (frames x
channels) and the updated player state; total, never raises. -/
def player_callback (st : PlayerState) (frames : ℕ) :
    List SampleRow × PlayerState :=
  match st.audio with
  | none =>
      (List.replicate frames (zeroRow st.channels),
       { st with analysisQueue := tryPush st.analysisQueue (List.replicate frames 0) })
  | some a =>
      if st.playing then
        let start := st.position
        let endIdx := min (start + frames) a.length
        let chunk := (a.drop start).take (endIdx - start)
        let wrote := endIdx - start
        let outdata := chunk ++ List.replicate (frames - wrote) (zeroRow st.channels)
        let playing' := if wrote < frames then false else st.playing
        ( outdata,
          { st with position := endIdx, playing := playing',
                    analysisQueue := tryPush st.analysisQueue (outdata.map rowMean) } )
      else
        (List.replicate frames (zeroRow st.channels),
         { st with analysisQueue := tryPush st.analysisQueue (List.replicate frames 0) })

/-- Python `int()` conversion of a number: truncation toward zero. -/
def truncInt (q : ℚ) : ℤ := if 0 ≤ q then ⌊q⌋ else ⌈q⌉

/-- `AudioFilePlayer.seek` (player.py lines 121-127): no-op when nothing
is loaded; otherwise moves the cursor by `int(seconds * samplerate)`
samples, clamped between 0 and the last valid sample index. -/
def seek (seconds : ℚ) (st : PlayerState) : PlayerState :=
  match st.audio with
  | none => st
  | some a =>
      let delta := truncInt (seconds * st.samplerate)
      let maxPos : ℤ := (a.length : ℤ) - 1
      { st with position := (max 0 (min maxPos ((st.position : ℤ) + delta))).toNat }

/-- `AudioFilePlayer.restart` (player.py lines 115-119): no-op when
nothing is loaded; otherwise resets the cursor to 0, leaving the playing
flag untouched. -/
def restart (st : PlayerState) : PlayerState :=
  match st.audio with
  | none => st
  | some _ => { st with position := 0 }

/-- The analysis snapshot produced once per tick
(analyzer.py `AnalysisState`). -/
structure AnalysisState where
  bass : ℝ
  mid : ℝ
  high : ℝ
  volume : ℝ
  beat : Bool
  treble_hit : Bool
  spectrum : List ℝ

/-- The analyzer's configuration and rolling histories
(analyzer.py `AudioAnalyzer.__init__`). -/
structure AudioAnalyzer where
  samplerate : ℕ
  blocksize : ℕ
  bass_hist : List ℝ
  high_hist : List ℝ
  vol_hist : List ℝ

/-- `deque(maxlen=64).append`: append on the right, evicting the oldest
entry once the history holds 64 values. -/
def histPush (h : List ℝ) (x : ℝ) : List ℝ :=
  if h.length < 64 then h ++ [x] else h.drop 1 ++ [x]

/-- `np.mean` of a history (sum divided by length). -/
noncomputable def listMean (l : List ℝ) : ℝ := l.sum / l.length

/-- `np.hanning(m)[i] = 0.5 - 0.5 cos(2 pi i / (m - 1))`, with numpy's
explicit special case `np.hanning(1) = [1.0]` (the analysis window of
analyzer.py line 26). -/
noncomputable def hanning (m i : ℕ) : ℝ :=
  if m = 1 then 1 else 0.5 - 0.5 * Real.cos (2 * Real.pi * i / (m - 1 : ℕ))

/-- Truncate (`frame[:blocksize]`) then zero-pad (`np.pad`) the sanitized
frame to exactly `n` samples (analyzer.py lines 41-43). -/
def fitFrame (n : ℕ) (l : List ℚ) : List ℚ :=
  l.take n ++ List.replicate (n - (l.take n).length) 0

/-- `np.fft.rfftfreq(blocksize, 1/samplerate)[i] = i * samplerate /
blocksize`: the centre frequency of bin `i` (analyzer.py line 27). -/
def freqs (sr n i : ℕ) : ℚ := (i * sr : ℚ) / n

/-- The sanitized, fitted time-domain signal entering the numeric part of
`analyze`, as a total function on sample indices (0 beyond the frame). -/
def signalOf (a : AudioAnalyzer) (frame : List FloatVal) (m : ℕ) : ℚ :=
  (fitFrame a.blocksize ((sanitize frame).map FloatVal.val)).getD m 0

/-- Real-input DFT bin `k` of the length-`n` signal `x`
(`np.fft.rfft`): `sum over m < n of x m * exp(-2 pi I m k / n)`. -/
noncomputable def rfft (n : ℕ) (x : ℕ → ℝ) (k : ℕ) : ℂ :=
  ∑ m ∈ Finset.range n, (x m : ℂ) * Complex.exp (-(2 * Real.pi * Complex.I * m * k) / n)

/-- Magnitude spectrum `mag = np.abs(np.fft.rfft(frame * window))`
(analyzer.py lines 45-47). -/
noncomputable def magOf (a : AudioAnalyzer) (frame : List FloatVal) (k : ℕ) : ℝ :=
  Complex.abs (rfft a.blocksize (fun m => (signalOf a frame m : ℝ) * hanning a.blocksize m) k)

/-- The bins whose centre frequency lies in `[low, high)` — the mask of
`AudioAnalyzer._band_energy` (analyzer.py line 34). -/
def bandBins (a : AudioAnalyzer) (low high : ℚ) : Finset (Fin (a.blocksize / 2 + 1)) :=
  Finset.univ.filter (fun i =>
    low ≤ freqs a.samplerate a.blocksize i ∧ freqs a.samplerate a.blocksize i < high)

/-- `AudioAnalyzer._band_energy`: the arithmetic mean of the magnitudes
over the masked bins, 0 when the mask is empty (analyzer.py lines 33-37). -/
noncomputable def band_energy (a : AudioAnalyzer) (frame : List FloatVal)
    (low high : ℚ) : ℝ :=
  if bandBins a low high = ∅ then 0
  else (∑ i ∈ bandBins a low high, magOf a frame i) / (bandBins a low high).card

/-- `volume = sqrt(mean(frame ** 2))` over the sanitized, fitted
time-domain frame (analyzer.py line 52). -/
noncomputable def volumeOf (a : AudioAnalyzer) (frame : List FloatVal) : ℝ :=
  Real.sqrt ((∑ m ∈ Finset.range a.blocksize, (signalOf a frame m : ℝ) ^ 2) / a.blocksize)

/-- `np.max(mag)`: the peak over the `blocksize/2 + 1` magnitude bins
(analyzer.py line 64). -/
noncomputable def peakOf (a : AudioAnalyzer) (frame : List FloatVal) : ℝ :=
  Finset.univ.sup' ⟨⟨0, Nat.succ_pos _⟩, Finset.mem_univ _⟩
    (fun i : Fin (a.blocksize / 2 + 1) => magOf a frame i)

open Classical in
/-- `AudioAnalyzer.analyze` (analyzer.py lines 39-75): sanitizes and fits
the frame, computes band energies and RMS volume, pushes them into the
rolling histories, detects beat/treble onsets against the moving averages
(which include the just-pushed values), and normalizes the magnitude
spectrum by its own peak plus epsilon. Returns the snapshot together with
the updated analyzer; total, never raises. -/
noncomputable def analyze (a : AudioAnalyzer) (frame : List FloatVal) :
    AnalysisState × AudioAnalyzer :=
  let bass := band_energy a frame 20 180
  let mid := band_energy a frame 180 2000
  let high := band_energy a frame 2000 12000
  let volume := volumeOf a frame
  let bassHist := histPush a.bass_hist bass
  let highHist := histPush a.high_hist high
  let volHist := histPush a.vol_hist volume
  let bassAvg := if bassHist = [] then bass else listMean bassHist
  let highAvg := if highHist = [] then high else listMean highHist
  let beat : Bool := if bass > bassAvg * 1.55 + 1e-6 then true else false
  let trebleHit : Bool := if high > highAvg * 1.65 + 1e-6 then true else false
  let spectrum := List.ofFn (fun k : Fin (a.blocksize / 2 + 1) =>
    magOf a frame k / (peakOf a frame + 1e-6))
  (⟨bass, mid, high, volume, beat, trebleHit, spectrum⟩,
   { a with bass_hist := bassHist, high_hist := highHist, vol_hist := volHist })

/-- The largest finite float32 value as a real number. -/
noncomputable def float32MaxR : ℝ := ((float32Max : ℚ) : ℝ)

/-- The result of a float32 computation: a finite value, or one of the
IEEE-754 special values produced by overflow (`inf`, `neginf`) and invalid
operations such as Inf/Inf (`nan`). -/
inductive F32 where
  | finite (x : ℝ)
  | inf
  | neginf
  | nan

/-- Conversion of an exact real result into float32: a value beyond the
largest finite float32 magnitude overflows to the like-signed infinity;
rounding inside the representable range is idealized away. -/
noncomputable def toF32 (x : ℝ) : F32 :=
  if float32MaxR < x then F32.inf
  else if x < -float32MaxR then F32.neginf
  else F32.finite x

/-- `mag = np.abs(spectrum).astype(np.float32)` (analyzer.py line 47):
the exact magnitude of bin `k` cast to float32, so a magnitude above the
largest finite float32 becomes +Inf. -/
noncomputable def magF32 (a : AudioAnalyzer) (frame : List FloatVal) (k : ℕ) : F32 :=
  toF32 (magOf a frame k)

/-- `volume = float(np.sqrt(np.mean(frame ** 2)))` (analyzer.py line 52)
computed in float32: the squares and their accumulated sum are float32, so
the result is +Inf as soon as the exact sum of squares exceeds the largest
finite float32 (the summands are squares, hence nonnegative, so a single
overflowing square already drives the sum over the threshold); otherwise
the mean and square root stay finite. -/
noncomputable def volumeF32 (a : AudioAnalyzer) (frame : List FloatVal) : F32 :=
  let s := ∑ m ∈ Finset.range a.blocksize, (signalOf a frame m : ℝ) ^ 2
  if float32MaxR < s then F32.inf
  else F32.finite (Real.sqrt (s / a.blocksize))

/-- `norm = np.max(mag) + 1e-6; mag_norm = mag / norm` (analyzer.py lines
64-65) over the float32 magnitudes of line 47: if any bin overflowed
float32 (equivalently, the exact peak exceeds the largest finite float32)
then `np.max(mag)` is +Inf, `norm` is +Inf, and each element is either a
finite value divided by +Inf (exactly 0) or Inf/Inf (NaN); otherwise every
bin and the norm are finite and the division is exact. This is the value
the program's `spectrum` field actually holds; `analyze` above keeps the
infinite-precision skeleton. -/
noncomputable def spectrumF32 (a : AudioAnalyzer) (frame : List FloatVal) : List F32 :=
  if float32MaxR < peakOf a frame then
    List.ofFn (fun k : Fin (a.blocksize / 2 + 1) =>
      match magF32 a frame k with
      | F32.finite _ => F32.finite 0
      | _ => F32.nan)
  else
    List.ofFn (fun k : Fin (a.blocksize / 2 + 1) =>
      F32.finite (magOf a frame k / (peakOf a frame + 1e-6)))

/-- A burst particle (visuals.py `Particle`). -/
structure Particle where
  x : ℝ
  y : ℝ
  vx : ℝ
  vy : ℝ
  life : ℝ
  size : ℝ
  hue : ℝ

/-- An expanding beat ring (visuals.py `Ring`). -/
structure Ring where
  x : ℝ
  y : ℝ
  radius : ℝ
  speed : ℝ
  life : ℝ
  hue : ℝ

/-- The mutable state of `VisualizerRenderer` that `update` touches
(visuals.py `__init__`): particle/ring populations plus the scalar visual
state. `width`/`height` give the spawn centre. -/
structure RendererState where
  width : ℝ
  height : ℝ
  particles : List Particle
  rings : List Ring
  hue : ℝ
  bg_phase : ℝ
  shake : ℝ
  flash : ℝ
  zoom : ℝ
  mode_index : ℕ
  intensity : ℝ

/-- Python float `%` (used for `hue % 360`): the remainder with the
divisor's sign, `x - y * floor (x / y)`. -/
noncomputable def pymod (x y : ℝ) : ℝ := x - y * ⌊x / y⌋

/-- Python `int()` on a real value: truncation toward zero. -/
noncomputable def truncIntR (x : ℝ) : ℤ := if 0 ≤ x then ⌊x⌋ else ⌈x⌉

/-- `VisualizerRenderer.spawn_burst` (visuals.py lines 69-83): each
particle consumes five `random.uniform` draws (angle, base speed, life,
size, hue offset); `rand` is the oracle supplying the draw results,
consumed from index `base` on, in program order. -/
noncomputable def spawn_burst (rand : ℕ → ℝ) (base : ℕ) (st : RendererState)
    (amount : ℕ) (bass : ℝ) : List Particle :=
  List.ofFn (fun j : Fin amount =>
    let angle := rand (base + 5 * (j : ℕ))
    let speed := rand (base + 5 * (j : ℕ) + 1) + bass * 0.01
    { x := st.width / 2
      y := st.height / 2
      vx := Real.cos angle * speed
      vy := Real.sin angle * speed
      life := rand (base + 5 * (j : ℕ) + 2)
      size := rand (base + 5 * (j : ℕ) + 3)
      hue := pymod (st.hue + rand (base + 5 * (j : ℕ) + 4)) 360 })

/-- `VisualizerRenderer.spawn_ring` (visuals.py lines 85-95). -/
noncomputable def spawn_ring (st : RendererState) (bass : ℝ) : Ring :=
  { x := st.width / 2
    y := st.height / 2
    radius := 20 + bass * 0.04
    speed := 3.0 + bass * 0.02
    life := 1.0
    hue := st.hue }

open Classical in
/-- `VisualizerRenderer.update` (visuals.py lines 97-131) up to — but not
including — the final population caps: the intensity/hue/phase/zoom
updates, the beat and treble spawn bursts, the shake/flash decay, particle
integration and pruning, and ring growth and pruning. -/
noncomputable def updateCore (rand : ℕ → ℝ) (dt : ℝ) (state : AnalysisState)
    (st : RendererState) : RendererState :=
  let target := min 1.0 (max 0.0 ((state.volume - 0.012) / 0.10))
  let intensity := st.intensity * 0.92 + target * 0.08
  let hue := pymod (st.hue + (30 + 45 * intensity) * dt + state.high * 0.0015) 360
  let bgPhase := st.bg_phase + dt * (0.25 + intensity + state.mid * 0.0002)
  let zoom := 1.0 + 0.02 * Real.sin (bgPhase * 0.7) + min 0.08 state.volume
  let st1 := { st with intensity := intensity, hue := hue, bg_phase := bgPhase, zoom := zoom }
  let beatAmount := (truncIntR (12 + 48 * intensity)).toNat
  let st2 :=
    if state.beat = true ∧ 0.08 < intensity then
      { st1 with shake := min 25.0 (st1.shake + (2 + 11 * intensity) + state.bass * 0.02)
                 flash := min 200.0 (st1.flash + 15 + 55 * intensity)
                 particles := st1.particles ++ spawn_burst rand 0 st1 beatAmount state.bass
                 rings := st1.rings ++ [spawn_ring st1 state.bass] }
    else st1
  let trebleBase := if state.beat = true ∧ 0.08 < intensity then 5 * beatAmount else 0
  let trebleAmount := (truncIntR (8 + 22 * intensity)).toNat
  let st3 :=
    if state.treble_hit = true ∧ 0.12 < intensity then
      { st2 with flash := min 255.0 (st2.flash + 25 + 70 * intensity)
                 particles := st2.particles ++
                   spawn_burst rand trebleBase st2 trebleAmount state.high }
    else st2
  let st4 := { st3 with shake := st3.shake * 0.86, flash := st3.flash * 0.80 }
  let drag := max 0.7 (1.0 - dt * 2.0)
  let movedP := st4.particles.map (fun p =>
    { p with x := p.x + p.vx
             y := p.y + p.vy
             vx := p.vx * drag
             vy := p.vy * drag
             life := p.life - dt * (0.8 + 0.3 * intensity)
             size := p.size * 0.995 })
  let keptP := movedP.filter (fun p => decide (0 < p.life ∧ 0.5 < p.size))
  let movedR := st4.rings.map (fun r =>
    { r with radius := r.radius + r.speed + state.bass * 0.002
             life := r.life - dt * (0.45 + 0.25 * intensity) })
  let keptR := movedR.filter (fun r => decide (0 < r.life))
  { st4 with particles := keptP, rings := keptR }

/-- Keep only the `cap` most recent entries (`self.particles[-1200:]`,
`self.rings[-120:]`, visuals.py lines 133-136). -/
def capTail {α : Type} (cap : ℕ) (l : List α) : List α :=
  if cap < l.length then l.drop (l.length - cap) else l

/-- `VisualizerRenderer.update` in full (visuals.py lines 97-136): the
per-tick step followed by the population caps of 1200 particles and 120
rings. -/
noncomputable def update (rand : ℕ → ℝ) (dt : ℝ) (state : AnalysisState)
    (st : RendererState) : RendererState :=
  let core := updateCore rand dt state st
  { core with particles := capTail 1200 core.particles, rings := capTail 120 core.rings }

/-! Helper lemmas shared by the claim theorems. -/

theorem tryPush_length_le (q : List Frame) (x : Frame) (h : q.length ≤ exchangeCapacity) :
    (tryPush q x).length ≤ exchangeCapacity := by
  unfold tryPush
  split <;> rename_i hlt <;>
      simp only [List.length_append, List.length_drop, List.length_singleton] <;>
    simp only [exchangeCapacity] at * <;> omega

theorem tryPush_foldl (xs : List Frame) : ∀ q : List Frame, q.length ≤ exchangeCapacity →
    xs.foldl tryPush q = (q ++ xs).drop (q.length + xs.length - exchangeCapacity) := by
  induction xs with
  | nil =>
      intro q hq
      simp only [List.foldl_nil, List.append_nil, List.length_nil, Nat.add_zero]
      rw [Nat.sub_eq_zero_of_le hq, List.drop_zero]
  | cons x xs ih =>
      intro q hq
      rw [List.foldl_cons, ih (tryPush q x) (tryPush_length_le q x hq)]
      by_cases hlt : q.length < exchangeCapacity
      · have h1 : tryPush q x = q ++ [x] := by simp [tryPush, hlt]
        rw [h1]
        have h2 : (q ++ [x]).length = q.length + 1 := by simp
        rw [h2, List.append_assoc]
        have h3 : q.length + 1 + xs.length = q.length + (xs.length + 1) := by omega
        have h4 : ([x] ++ xs : List Frame) = x :: xs := rfl
        rw [h3, h4]
        simp [List.length_cons]
      · have hcap : q.length = exchangeCapacity := le_antisymm hq (Nat.le_of_not_lt hlt)
        have h1 : tryPush q x = q.drop 1 ++ [x] := by simp [tryPush, hlt]
        rw [h1]
        have h2 : (q.drop 1 ++ [x]).length = exchangeCapacity := by
          simp only [List.length_append, List.length_drop, List.length_singleton, hcap]
          simp only [exchangeCapacity]
        rw [h2, List.append_assoc]
        have h4 : ([x] ++ xs : List Frame) = x :: xs := rfl
        rw [h4]
        have h5 : exchangeCapacity + xs.length - exchangeCapacity = xs.length := by
          simp only [exchangeCapacity]
          omega
        rw [h5]
        have h6 : (q ++ x :: xs).drop 1 = q.drop 1 ++ x :: xs := by
          apply List.drop_append_of_le_length
          rw [hcap]
          simp only [exchangeCapacity]
          omega
        have h7 : q.length + (x :: xs).length - exchangeCapacity = xs.length + 1 := by
          simp only [List.length_cons, hcap]
          simp only [exchangeCapacity]
          omega
        rw [h7, ← h6, List.drop_drop]
        rw [Nat.add_comm]

/-- CLAIM C3: pushing `N > capacity` frames into the exchange (from any
reachable queue state, i.e. one holding at most `capacity` frames) with no
intervening drains never blocks or fails (the fold is total), and leaves
exactly `capacity` frames retained, namely the most recent `capacity`
pushes in order. -/
theorem tryPush_overflow_keeps_latest (init xs : List Frame)
    (hinit : init.length ≤ exchangeCapacity) (hn : exchangeCapacity < xs.length) :
    (xs.foldl tryPush init).length = exchangeCapacity ∧
    xs.foldl tryPush init = xs.drop (xs.length - exchangeCapacity) := by
  have hfold := tryPush_foldl xs init hinit
  have harith : init.length + xs.length - exchangeCapacity =
      init.length + (xs.length - exchangeCapacity) := by
    simp only [exchangeCapacity] at hn ⊢
    omega
  rw [harith] at hfold
  rw [List.drop_append] at hfold
  refine ⟨?_, hfold⟩
  rw [hfold, List.length_drop]
  simp only [exchangeCapacity] at hn ⊢
  omega

/-- Witness for C3: nine singleton frames pushed into an empty exchange
leave the last eight, in order. -/
theorem tryPush_overflow_keeps_latest_witness :
    ([] : List Frame).length ≤ exchangeCapacity ∧
    exchangeCapacity <
      ([[0], [1], [2], [3], [4], [5], [6], [7], [8]] : List Frame).length ∧
    (([[0], [1], [2], [3], [4], [5], [6], [7], [8]] : List Frame).foldl tryPush []).length =
      exchangeCapacity ∧
    ([[0], [1], [2], [3], [4], [5], [6], [7], [8]] : List Frame).foldl tryPush [] =
      ([[0], [1], [2], [3], [4], [5], [6], [7], [8]] : List Frame).drop
        (([[0], [1], [2], [3], [4], [5], [6], [7], [8]] : List Frame).length -
          exchangeCapacity) := by
  refine ⟨by decide, by decide, ?_⟩
  exact tryPush_overflow_keeps_latest [] [[0], [1], [2], [3], [4], [5], [6], [7], [8]]
    (by decide) (by decide)

/-- CLAIM C4: draining the exchange removes every buffered frame, never
blocks (totality of `drainLatest`), returns the most recently pushed frame
when one is buffered (both in terms of `getLast?` and of the producer's
`tryPush`), and returns a zero-filled frame of exactly `blocksize` samples
when the queue was empty. -/
theorem drainLatest_spec (n : ℕ) (q : List Frame) :
    (drainLatest n q).2 = [] ∧
    (∀ x : Frame, q.getLast? = some x → (drainLatest n q).1 = x) ∧
    (∀ (q' : List Frame) (x : Frame), q = tryPush q' x → (drainLatest n q).1 = x) ∧
    (q = [] → (drainLatest n q).1 = List.replicate n 0 ∧ (drainLatest n q).1.length = n) := by
  refine ⟨rfl, ?_, ?_, ?_⟩
  · intro x hx
    simp [drainLatest, hx]
  · intro q' x hq
    have hlast : q.getLast? = some x := by
      rw [hq]
      unfold tryPush
      split <;> exact List.getLast?_concat _
    simp [drainLatest, hlast]
  · intro hq
    subst hq
    simp [drainLatest]

/-- Witness for C4: a drain after one push returns the pushed frame, and a
drain of the empty exchange returns `blocksize` zeros. -/
theorem drainLatest_spec_witness :
    (drainLatest 4 (tryPush [[1]] [2])).1 = [2] ∧
    (drainLatest 4 ([] : List Frame)).1 = List.replicate 4 0 ∧
    (drainLatest 4 ([] : List Frame)).2 = [] := by
  refine ⟨(drainLatest_spec 4 (tryPush [[1]] [2])).2.2.1 [[1]] [2] rfl, ?_, ?_⟩
  · exact ((drainLatest_spec 4 []).2.2.2 rfl).1
  · exact (drainLatest_spec 4 []).1

/-- CLAIM C8: on a player with no file loaded, `seek` (with any offset)
and `restart` are no-ops that raise no error (both are total) and leave
the entire player state unchanged. -/
theorem seek_restart_unloaded_noop (st : PlayerState) (seconds : ℚ)
    (h : st.audio = none) : seek seconds st = st ∧ restart st = st := by
  constructor
  · unfold seek
    rw [h]
  · unfold restart
    rw [h]

/-- Witness for C8: a concrete unloaded player is untouched by `seek` and
`restart`. -/
theorem seek_restart_unloaded_noop_witness :
    seek 5 ⟨1024, none, 44100, 1, 0, false, []⟩ = ⟨1024, none, 44100, 1, 0, false, []⟩ ∧
    restart ⟨1024, none, 44100, 1, 0, false, []⟩ = ⟨1024, none, 44100, 1, 0, false, []⟩ :=
  seek_restart_unloaded_noop ⟨1024, none, 44100, 1, 0, false, []⟩ 5 rfl

/-- CLAIM C10: when the live-capture audio callback is invoked with a
non-empty device status flag (`status` true), it returns immediately
without pushing anything: the frame exchange contents are unchanged and
that frame is silently dropped. -/
theorem audio_callback_status_drops (indata : List SampleRow) (q : List Frame) :
    audio_callback true indata q = q := by
  simp [audio_callback]

theorem truncInt_intCast (m : ℤ) : truncInt (m : ℚ) = m := by
  unfold truncInt
  split <;> simp

/-- CLAIM C6: on a loaded track, a relative seek of any magnitude and sign
sets the cursor to the old cursor plus the offset converted to samples,
clamped to `[0, totalSamples - 1]`; in particular, on a 10-second track,
seeking -9999 seconds lands on sample 0 and seeking +9999 seconds lands on
the last valid sample. -/
theorem seek_clamps (st : PlayerState) (a : List SampleRow) (seconds : ℚ)
    (h : st.audio = some a) :
    (seek seconds st).position =
      (max 0 (min ((a.length : ℤ) - 1)
        ((st.position : ℤ) + truncInt (seconds * st.samplerate)))).toNat ∧
    (0 < st.samplerate → a.length = 10 * st.samplerate → st.position < a.length →
      (seek (-9999) st).position = 0 ∧
      (seek 9999 st).position = a.length - 1) := by
  have hseek : ∀ s : ℚ, (seek s st).position =
      (max 0 (min ((a.length : ℤ) - 1)
        ((st.position : ℤ) + truncInt (s * st.samplerate)))).toNat := by
    intro s
    unfold seek
    rw [h]
  refine ⟨hseek seconds, ?_⟩
  intro hsr hlen hpos
  have hneg : truncInt ((-9999 : ℚ) * (st.samplerate : ℚ)) =
      (-9999) * (st.samplerate : ℤ) := by
    have hc : ((-9999 : ℚ) * (st.samplerate : ℚ)) =
        (((-9999) * (st.samplerate : ℤ) : ℤ) : ℚ) := by push_cast; ring
    rw [hc, truncInt_intCast]
  have hposn : truncInt ((9999 : ℚ) * (st.samplerate : ℚ)) =
      9999 * (st.samplerate : ℤ) := by
    have hc : ((9999 : ℚ) * (st.samplerate : ℚ)) =
        ((9999 * (st.samplerate : ℤ) : ℤ) : ℚ) := by push_cast; ring
    rw [hc, truncInt_intCast]
  constructor
  · rw [hseek (-9999), hneg]
    omega
  · rw [hseek 9999, hposn]
    omega

/-- Witness for C6: on a concrete 10-second track (100 samples at 10 Hz)
with the cursor at sample 50, seeking -9999 seconds lands on 0 and seeking
+9999 seconds lands on the last valid sample. -/
theorem seek_clamps_witness :
    (seek (-9999) ⟨4, some (List.replicate 100 [0]), 10, 1, 50, false, []⟩).position = 0 ∧
    (seek 9999 ⟨4, some (List.replicate 100 [0]), 10, 1, 50, false, []⟩).position =
      (List.replicate 100 ([0] : SampleRow)).length - 1 :=
  (seek_clamps ⟨4, some (List.replicate 100 [0]), 10, 1, 50, false, []⟩
      (List.replicate 100 [0]) 0 rfl).2
    (by norm_num) (by simp) (by simp)

/-- CLAIM C7: when the playback callback fires while playing and fewer
samples remain than requested, the output buffer receives the remaining
samples followed by zero rows, the playing flag transitions to false, and
no error is raised (`player_callback` is total): end-of-stream is a normal
stop condition. -/
theorem player_callback_end_of_stream (st : PlayerState) (a : List SampleRow)
    (frames : ℕ) (ha : st.audio = some a) (hp : st.playing = true)
    (hpos : st.position ≤ a.length) (hrem : a.length < st.position + frames) :
    (player_callback st frames).1 =
      a.drop st.position ++
        List.replicate (frames - (a.length - st.position)) (zeroRow st.channels) ∧
    (player_callback st frames).2.playing = false ∧
    (player_callback st frames).2.position = a.length := by
  have hmin : min (st.position + frames) a.length = a.length := by omega
  have htake : (a.drop st.position).take (a.length - st.position) = a.drop st.position := by
    apply List.take_of_length_le
    simp [List.length_drop]
  have hwrote : a.length - st.position < frames := by omega
  unfold player_callback
  rw [ha]
  simp only [hp, if_true, hmin, htake, hwrote, if_pos hwrote]
  exact ⟨trivial, trivial, trivial⟩

/-- Witness for C7: a 3-sample mono track with the cursor at sample 1 and
a 4-sample request writes the 2 remaining samples plus 2 zero rows, pauses
and parks the cursor at the end. -/
theorem player_callback_end_of_stream_witness :
    (player_callback ⟨4, some [[1], [2], [3]], 10, 1, 1, true, []⟩ 4).1 =
      ([[1], [2], [3]] : List SampleRow).drop 1 ++
        List.replicate (4 - (([[1], [2], [3]] : List SampleRow).length - 1)) (zeroRow 1) ∧
    (player_callback ⟨4, some [[1], [2], [3]], 10, 1, 1, true, []⟩ 4).2.playing = false ∧
    (player_callback ⟨4, some [[1], [2], [3]], 10, 1, 1, true, []⟩ 4).2.position =
      ([[1], [2], [3]] : List SampleRow).length :=
  player_callback_end_of_stream ⟨4, some [[1], [2], [3]], 10, 1, 1, true, []⟩
    [[1], [2], [3]] 4 rfl rfl (by decide) (by decide)

theorem float32MaxR_pos : (0 : ℝ) < float32MaxR := by
  unfold float32MaxR float32Max
  norm_num

theorem one_lt_float32MaxR : (1 : ℝ) < float32MaxR := by
  unfold float32MaxR float32Max
  norm_num

/-- CLAIM C1, the code evaluated at a failing input: on a frame of +Inf
samples the sanitizer produces the largest finite float32 value in every
position — not 0, so 0 never enters the frame — and the float32 squaring
of those sanitized samples overflows, making the returned RMS volume +Inf:
a non-finite field, contradicting the claimed sanitize-to-0 and
all-fields-finite behaviour. -/
theorem analyze_inf_overflow :
    sanitize [FloatVal.inf, FloatVal.inf, FloatVal.inf, FloatVal.inf] =
      [FloatVal.finite float32Max, FloatVal.finite float32Max,
        FloatVal.finite float32Max, FloatVal.finite float32Max] ∧
    FloatVal.finite 0 ∉ sanitize [FloatVal.inf, FloatVal.inf, FloatVal.inf, FloatVal.inf] ∧
    volumeF32 ⟨44100, 4, [], [], []⟩
      [FloatVal.inf, FloatVal.inf, FloatVal.inf, FloatVal.inf] = F32.inf := by
  refine ⟨rfl, by decide, ?_⟩
  have hs0 : signalOf ⟨44100, 4, [], [], []⟩
      [FloatVal.inf, FloatVal.inf, FloatVal.inf, FloatVal.inf] 0 = float32Max := rfl
  have hs1 : signalOf ⟨44100, 4, [], [], []⟩
      [FloatVal.inf, FloatVal.inf, FloatVal.inf, FloatVal.inf] 1 = float32Max := rfl
  have hs2 : signalOf ⟨44100, 4, [], [], []⟩
      [FloatVal.inf, FloatVal.inf, FloatVal.inf, FloatVal.inf] 2 = float32Max := rfl
  have hs3 : signalOf ⟨44100, 4, [], [], []⟩
      [FloatVal.inf, FloatVal.inf, FloatVal.inf, FloatVal.inf] 3 = float32Max := rfl
  unfold volumeF32
  show (if float32MaxR < ∑ m ∈ Finset.range 4,
      ((signalOf ⟨44100, 4, [], [], []⟩
        [FloatVal.inf, FloatVal.inf, FloatVal.inf, FloatVal.inf] m : ℚ) : ℝ) ^ 2
    then F32.inf else _) = F32.inf
  rw [Finset.sum_range_succ, Finset.sum_range_succ, Finset.sum_range_succ,
    Finset.sum_range_succ, Finset.sum_range_zero, zero_add, hs0, hs1, hs2, hs3]
  rw [if_pos]
  have h1 := one_lt_float32MaxR
  have heq : (((float32Max : ℚ) : ℝ)) = float32MaxR := rfl
  rw [heq]
  nlinarith [float32MaxR_pos]

theorem histPush_ne_nil (h : List ℝ) (x : ℝ) : histPush h x ≠ [] := by
  unfold histPush
  split <;> simp

/-- CLAIM C2: the returned beat flag is true iff the frame's bass band
energy strictly exceeds 1.55 times the moving average of the 64-entry bass
history plus 1e-6, and treble_hit is true iff the high band energy
strictly exceeds 1.65 times the moving average of the high history plus
1e-6, where each moving average is taken after the current value has been
pushed (so it includes the just-computed value). -/
theorem analyze_beat_iff (a : AudioAnalyzer) (frame : List FloatVal) :
    ((analyze a frame).1.beat = true ↔
      band_energy a frame 20 180 >
        listMean (histPush a.bass_hist (band_energy a frame 20 180)) * 1.55 + 1e-6) ∧
    ((analyze a frame).1.treble_hit = true ↔
      band_energy a frame 2000 12000 >
        listMean (histPush a.high_hist (band_energy a frame 2000 12000)) * 1.65 + 1e-6) := by
  have hb := histPush_ne_nil a.bass_hist (band_energy a frame 20 180)
  have hh := histPush_ne_nil a.high_hist (band_energy a frame 2000 12000)
  constructor
  · show (if band_energy a frame 20 180 >
        (if histPush a.bass_hist (band_energy a frame 20 180) = [] then
          band_energy a frame 20 180
        else listMean (histPush a.bass_hist (band_energy a frame 20 180))) * 1.55 + 1e-6
      then true else false) = true ↔ _
    rw [if_neg hb]
    split <;> rename_i hc <;> simp [hc]
  · show (if band_energy a frame 2000 12000 >
        (if histPush a.high_hist (band_energy a frame 2000 12000) = [] then
          band_energy a frame 2000 12000
        else listMean (histPush a.high_hist (band_energy a frame 2000 12000))) * 1.65 + 1e-6
      then true else false) = true ↔ _
    rw [if_neg hh]
    split <;> rename_i hc <;> simp [hc]

theorem magOf_nonneg (a : AudioAnalyzer) (frame : List FloatVal) (k : ℕ) :
    0 ≤ magOf a frame k := Complex.abs.nonneg _

theorem le_peakOf (a : AudioAnalyzer) (frame : List FloatVal)
    (k : Fin (a.blocksize / 2 + 1)) : magOf a frame k ≤ peakOf a frame := by
  unfold peakOf
  exact Finset.le_sup' (fun i : Fin (a.blocksize / 2 + 1) => magOf a frame i)
    (Finset.mem_univ k)

theorem peakOf_nonneg (a : AudioAnalyzer) (frame : List FloatVal) :
    0 ≤ peakOf a frame :=
  le_trans (magOf_nonneg a frame 0) (le_peakOf a frame ⟨0, Nat.succ_pos _⟩)

theorem getD_replicate_q (n m : ℕ) (q : ℚ) : (List.replicate n q).getD m q = q := by
  induction n generalizing m with
  | zero => simp
  | succ k ih => cases m <;> simp [ih]

theorem signalOf_silent (a : AudioAnalyzer) (m : ℕ) :
    signalOf a (List.replicate a.blocksize (FloatVal.finite 0)) m = 0 := by
  unfold signalOf sanitize fitFrame
  simp only [List.map_replicate, List.take_replicate]
  have h1 : nan_to_num (FloatVal.finite 0) = FloatVal.finite 0 := rfl
  have h2 : FloatVal.val (FloatVal.finite 0) = 0 := rfl
  rw [h1, h2]
  simp only [min_self, List.length_replicate, Nat.sub_self, List.replicate_zero,
    List.append_nil]
  exact getD_replicate_q _ _ _

theorem magOf_silent (a : AudioAnalyzer) (k : ℕ) :
    magOf a (List.replicate a.blocksize (FloatVal.finite 0)) k = 0 := by
  unfold magOf
  have h0 : rfft a.blocksize
      (fun m => (signalOf a (List.replicate a.blocksize (FloatVal.finite 0)) m : ℝ) *
        hanning a.blocksize m) k = 0 := by
    unfold rfft
    apply Finset.sum_eq_zero
    intro m _
    simp [signalOf_silent]
  rw [h0]
  simp

theorem peakOf_silent (a : AudioAnalyzer) :
    peakOf a (List.replicate a.blocksize (FloatVal.finite 0)) = 0 := by
  apply le_antisymm
  · apply Finset.sup'_le
    intro k _
    exact le_of_eq (magOf_silent a _)
  · exact peakOf_nonneg a _

theorem cos_two_pi_div_three : Real.cos (2 * Real.pi / 3) = -(1 / 2) := by
  have h : 2 * Real.pi / 3 = Real.pi - Real.pi / 3 := by ring
  rw [h, Real.cos_pi_sub, Real.cos_pi_div_three]

theorem cos_four_pi_div_three : Real.cos (4 * Real.pi / 3) = -(1 / 2) := by
  have h : 4 * Real.pi / 3 = Real.pi - -(Real.pi / 3) := by ring
  rw [h, Real.cos_pi_sub, Real.cos_neg, Real.cos_pi_div_three]

theorem hanning4_0 : hanning 4 0 = 0 := by
  unfold hanning
  rw [if_neg (by norm_num)]
  norm_num

theorem hanning4_1 : hanning 4 1 = 3 / 4 := by
  unfold hanning
  rw [if_neg (by norm_num)]
  have h : 2 * Real.pi * ((1 : ℕ) : ℝ) / ((4 - 1 : ℕ) : ℝ) = 2 * Real.pi / 3 := by
    push_cast
    ring
  rw [h, cos_two_pi_div_three]
  norm_num

theorem hanning4_2 : hanning 4 2 = 3 / 4 := by
  unfold hanning
  rw [if_neg (by norm_num)]
  have h : 2 * Real.pi * ((2 : ℕ) : ℝ) / ((4 - 1 : ℕ) : ℝ) = 4 * Real.pi / 3 := by
    push_cast
    ring
  rw [h, cos_four_pi_div_three]
  norm_num

theorem hanning4_3 : hanning 4 3 = 0 := by
  unfold hanning
  rw [if_neg (by norm_num)]
  have h : 2 * Real.pi * ((3 : ℕ) : ℝ) / ((4 - 1 : ℕ) : ℝ) = 2 * Real.pi := by
    push_cast
    ring
  rw [h, Real.cos_two_pi]
  norm_num

theorem magOf_inf4_zero :
    magOf ⟨44100, 4, [], [], []⟩
      [FloatVal.inf, FloatVal.inf, FloatVal.inf, FloatVal.inf] 0 =
      3 / 2 * float32MaxR := by
  have hs0 : signalOf ⟨44100, 4, [], [], []⟩
      [FloatVal.inf, FloatVal.inf, FloatVal.inf, FloatVal.inf] 0 = float32Max := rfl
  have hs1 : signalOf ⟨44100, 4, [], [], []⟩
      [FloatVal.inf, FloatVal.inf, FloatVal.inf, FloatVal.inf] 1 = float32Max := rfl
  have hs2 : signalOf ⟨44100, 4, [], [], []⟩
      [FloatVal.inf, FloatVal.inf, FloatVal.inf, FloatVal.inf] 2 = float32Max := rfl
  have hs3 : signalOf ⟨44100, 4, [], [], []⟩
      [FloatVal.inf, FloatVal.inf, FloatVal.inf, FloatVal.inf] 3 = float32Max := rfl
  unfold magOf rfft
  show Complex.abs (∑ m ∈ Finset.range 4, _) = _
  rw [Finset.sum_range_succ, Finset.sum_range_succ, Finset.sum_range_succ,
    Finset.sum_range_succ, Finset.sum_range_zero, zero_add]
  simp only [Nat.cast_zero, mul_zero, neg_zero, zero_div, Complex.exp_zero, mul_one]
  rw [hs0, hs1, hs2, hs3, hanning4_0, hanning4_1, hanning4_2, hanning4_3]
  rw [← Complex.ofReal_add, ← Complex.ofReal_add, ← Complex.ofReal_add, Complex.abs_ofReal]
  have hsum : ((float32Max : ℚ) : ℝ) * 0 + ((float32Max : ℚ) : ℝ) * (3 / 4) +
      ((float32Max : ℚ) : ℝ) * (3 / 4) + ((float32Max : ℚ) : ℝ) * 0 =
      3 / 2 * float32MaxR := by
    unfold float32MaxR
    ring
  rw [hsum]
  rw [abs_of_nonneg (by have := float32MaxR_pos; linarith)]

/-- CLAIM C9, counterexample: on a frame of four +Inf samples (block size
4), bin 0's exact magnitude is 1.5 times the largest finite float32, so
the float32 cast of analyzer.py line 47 overflows it to +Inf, the
normalization divides +Inf by +Inf, and the returned spectrum contains
NaN — an element that is not a finite value in [0, 1]. -/
theorem spectrumF32_inf_nan :
    F32.nan ∈ spectrumF32 ⟨44100, 4, [], [], []⟩
      [FloatVal.inf, FloatVal.inf, FloatVal.inf, FloatVal.inf] := by
  have hmag := magOf_inf4_zero
  have hpk : float32MaxR < peakOf ⟨44100, 4, [], [], []⟩
      [FloatVal.inf, FloatVal.inf, FloatVal.inf, FloatVal.inf] := by
    have hle : magOf ⟨44100, 4, [], [], []⟩
        [FloatVal.inf, FloatVal.inf, FloatVal.inf, FloatVal.inf] 0 ≤
        peakOf ⟨44100, 4, [], [], []⟩
          [FloatVal.inf, FloatVal.inf, FloatVal.inf, FloatVal.inf] :=
      le_peakOf _ _ ⟨0, Nat.succ_pos _⟩
    rw [hmag] at hle
    have := float32MaxR_pos
    linarith
  have hm0 : magF32 ⟨44100, 4, [], [], []⟩
      [FloatVal.inf, FloatVal.inf, FloatVal.inf, FloatVal.inf] 0 = F32.inf := by
    unfold magF32 toF32
    rw [hmag]
    rw [if_pos (by have := float32MaxR_pos; linarith)]
  unfold spectrumF32
  rw [if_pos hpk]
  refine (List.mem_ofFn _ _).mpr (Set.mem_range.mpr ⟨⟨0, by norm_num⟩, ?_⟩)
  show (match magF32 ⟨44100, 4, [], [], []⟩
      [FloatVal.inf, FloatVal.inf, FloatVal.inf, FloatVal.inf] 0 with
    | F32.finite _ => F32.finite 0
    | _ => F32.nan) = F32.nan
  rw [hm0]

/-- CLAIM C9 (amended): the spectrum field of every returned state has
exactly `blocksize/2 + 1` elements; whenever no magnitude bin overflows
float32 (the exact peak is at most the largest finite float32) it equals
the magnitude spectrum divided by its own peak plus 1e-6 and every element
is a finite value in `[0, 1]`; and on an all-silent frame the epsilon
keeps the division well-defined and the spectrum is all zero. -/
theorem spectrumF32_normalized (a : AudioAnalyzer) (frame : List FloatVal) :
    (spectrumF32 a frame).length = a.blocksize / 2 + 1 ∧
    (peakOf a frame ≤ float32MaxR →
      spectrumF32 a frame = List.ofFn (fun k : Fin (a.blocksize / 2 + 1) =>
        F32.finite (magOf a frame k / (peakOf a frame + 1e-6))) ∧
      (∀ f ∈ spectrumF32 a frame, ∃ x : ℝ, f = F32.finite x ∧ 0 ≤ x ∧ x ≤ 1)) ∧
    (∀ f ∈ spectrumF32 a (List.replicate a.blocksize (FloatVal.finite 0)),
      f = F32.finite 0) := by
  refine ⟨?_, ?_, ?_⟩
  · unfold spectrumF32
    split <;> rw [List.length_ofFn]
  · intro hpeak
    have hbr : spectrumF32 a frame = List.ofFn (fun k : Fin (a.blocksize / 2 + 1) =>
        F32.finite (magOf a frame k / (peakOf a frame + 1e-6))) := by
      unfold spectrumF32
      rw [if_neg (not_lt.mpr hpeak)]
    refine ⟨hbr, ?_⟩
    intro f hf
    rw [hbr] at hf
    obtain ⟨k, hk⟩ := Set.mem_range.mp ((List.mem_ofFn _ _).mp hf)
    have hden : (0:ℝ) < peakOf a frame + 1e-6 := by
      have := peakOf_nonneg a frame
      have heps : (0:ℝ) < 1e-6 := by norm_num
      linarith
    refine ⟨magOf a frame k / (peakOf a frame + 1e-6), hk.symm, ?_, ?_⟩
    · exact div_nonneg (magOf_nonneg a frame k) hden.le
    · rw [div_le_one hden]
      exact le_trans (le_peakOf a frame k) (le_add_of_nonneg_right (by norm_num))
  · have hpk0 : peakOf a (List.replicate a.blocksize (FloatVal.finite 0)) = 0 :=
      peakOf_silent a
    have hnot : ¬ float32MaxR < peakOf a (List.replicate a.blocksize (FloatVal.finite 0)) := by
      rw [hpk0]
      have := float32MaxR_pos
      linarith
    intro f hf
    unfold spectrumF32 at hf
    rw [if_neg hnot] at hf
    obtain ⟨k, hk⟩ := Set.mem_range.mp ((List.mem_ofFn _ _).mp hf)
    rw [← hk, magOf_silent, hpk0]
    have hz : (0:ℝ) / (0 + 1e-6) = 0 := by norm_num
    rw [hz]

/-- Witness for C9: a concrete silent frame at block size 4 satisfies the
no-overflow hypothesis, yields a 3-element spectrum, and every element is
a finite value in [0, 1]. -/
theorem spectrumF32_normalized_witness :
    peakOf ⟨44100, 4, [], [], []⟩ (List.replicate 4 (FloatVal.finite 0)) ≤ float32MaxR ∧
    (spectrumF32 ⟨44100, 4, [], [], []⟩ (List.replicate 4 (FloatVal.finite 0))).length =
      4 / 2 + 1 ∧
    (∀ f ∈ spectrumF32 ⟨44100, 4, [], [], []⟩ (List.replicate 4 (FloatVal.finite 0)),
      ∃ x : ℝ, f = F32.finite x ∧ 0 ≤ x ∧ x ≤ 1) := by
  have hpk : peakOf ⟨44100, 4, [], [], []⟩ (List.replicate 4 (FloatVal.finite 0)) ≤
      float32MaxR := by
    have h0 : peakOf ⟨44100, 4, [], [], []⟩ (List.replicate 4 (FloatVal.finite 0)) = 0 :=
      peakOf_silent ⟨44100, 4, [], [], []⟩
    rw [h0]
    exact float32MaxR_pos.le
  have h := spectrumF32_normalized ⟨44100, 4, [], [], []⟩ (List.replicate 4 (FloatVal.finite 0))
  exact ⟨hpk, h.1, (h.2.1 hpk).2⟩

theorem capTail_length {α : Type} (cap : ℕ) (l : List α) :
    (capTail cap l).length = min l.length cap := by
  unfold capTail
  split <;> rename_i h
  · simp only [List.length_drop]
    omega
  · omega

theorem capTail_sfx {α : Type} (cap : ℕ) (l : List α) : capTail cap l <:+ l := by
  unfold capTail
  split
  · exact List.drop_suffix _ _
  · exact List.suffix_refl _

/-- CLAIM C5: after every `update`, regardless of the analysis state, the
elapsed `dt` and which beat/treble bursts fired, the particle population
is at most 1200 and the ring population at most 120; when a cap is
exceeded during the tick the oldest entries are trimmed first and the most
recent kept (the retained list is a suffix of the evolved population, of
length exactly `min population cap`). -/
theorem update_population_caps (rand : ℕ → ℝ) (dt : ℝ) (state : AnalysisState)
    (st : RendererState) :
    (update rand dt state st).particles.length ≤ 1200 ∧
    (update rand dt state st).rings.length ≤ 120 ∧
    (update rand dt state st).particles.length =
      min (updateCore rand dt state st).particles.length 1200 ∧
    (update rand dt state st).rings.length =
      min (updateCore rand dt state st).rings.length 120 ∧
    (update rand dt state st).particles <:+ (updateCore rand dt state st).particles ∧
    (update rand dt state st).rings <:+ (updateCore rand dt state st).rings := by
  have hp : (update rand dt state st).particles =
      capTail 1200 (updateCore rand dt state st).particles := rfl
  have hr : (update rand dt state st).rings =
      capTail 120 (updateCore rand dt state st).rings := rfl
  rw [hp, hr, capTail_length, capTail_length]
  exact ⟨Nat.min_le_right _ _, Nat.min_le_right _ _, rfl, rfl,
    capTail_sfx _ _, capTail_sfx _ _⟩

end XV
